import Mathlib

/-!
Shallow embedding of the daisugi handler-composition engine
(src/daisugi/daisugi.ts) and verification of its specification claims.

Modelling conventions:
* JavaScript values are the inductive `JSVal`.  The three duck-typed control
  signal objects (`{code: 'DAISUGI:ABORT', result}`, `{code: 'DAISUGI:JUMP',
  handler, args}`, `{code: 'DAISUGI:STOP_PROPAGATION', result}`) are the
  constructors `sigAbort`, `sigJump`, `sigStop`.  The thrown jump object in the
  source carries the already-wrapped target closure; since a Lean inductive
  cannot store such a closure, `sigJump` carries the registered name and the
  arguments, and `captureException` performs the registry lookup and the
  exception-capture wrapping at interception time, exactly as
  `decorateWithExceptionCapture(globalHandlersByName[name])` does in
  `jumpTo` + `captureException` combined.  This is observationally the same
  because the registry is only written while pipelines are built.
* A settled promise is `vpromiseOk v` / `vpromiseErr e`; execution is
  deterministic and single-threaded (spec section 5), so a pending value is
  identified with its eventual outcome.
* Throwing is modelled monadically: a computation yields
  `Res = Option (Except JSVal JSVal)`, where `some (.ok v)` is a normal
  return, `some (.error e)` is a thrown value `e`, and `none` is the
  fuel-exhaustion artifact of modelling unbounded jump chains.
* Handlers are wrapped at build time; the wrapped handler for position `k`
  closes over the shared handler array, so invocation is modelled by the
  total function `runFromAux phs rest k`, with `rest = phs.drop k` the
  still-to-run suffix of the chain.
-/

namespace Daisugi

/-- JavaScript values flowing through a pipeline, including the duck-typed
control-signal objects and settled promises. -/
inductive JSVal : Type where
  | vnum : Int → JSVal
  | vstr : String → JSVal
  | vbool : Bool → JSVal
  | vnull : JSVal
  | vundefined : JSVal
  | sigAbort : JSVal → JSVal
  | sigStop : JSVal → JSVal
  | sigJump : String → List JSVal → JSVal
  | vTypeError : JSVal
  | vpromiseOk : JSVal → JSVal
  | vpromiseErr : JSVal → JSVal

/-- `const abortExceptionCode = 'DAISUGI:ABORT'`. -/
def abortExceptionCode : String := "DAISUGI:ABORT"

/-- `const jumpExceptionCode = 'DAISUGI:JUMP'`. -/
def jumpExceptionCode : String := "DAISUGI:JUMP"

/-- `const stopPropagationExceptionCode = 'DAISUGI:STOP_PROPAGATION'`. -/
def stopPropagationExceptionCode : String := "DAISUGI:STOP_PROPAGATION"

/-- The `.code` property of a value (`undefined`, i.e. `none`, when the value
is not one of the signal objects). -/
def JSVal.code : JSVal → Option String
  | .sigAbort _ => some abortExceptionCode
  | .sigJump _ _ => some jumpExceptionCode
  | .sigStop _ => some stopPropagationExceptionCode
  | _ => none

/-- Outcome of running a piece of pipeline code: `some (.ok v)` is a normal
return, `some (.error e)` a thrown value, `none` fuel exhaustion. -/
abbrev Res := Option (Except JSVal JSVal)

/-- `Promise.resolve(v)`: wraps a plain value, adopts an existing promise. -/
def promiseResolve : JSVal → JSVal
  | .vpromiseOk v => .vpromiseOk v
  | .vpromiseErr e => .vpromiseErr e
  | v => .vpromiseOk v

/-- The promise produced by a `.then`/`.catch` callback outcome: a normal
return is flattened into a fulfilled promise, a throw becomes a rejection. -/
def promiseOfOutcome : Except JSVal JSVal → JSVal
  | .ok w => promiseResolve w
  | .error e => .vpromiseErr e

/-- `v.then(f)`: on a fulfilled promise run `f` with the value and flatten; a
rejected promise passes through; `.then` on a non-promise is a TypeError. -/
def thenRun (v : JSVal) (f : JSVal → Res) : Res :=
  match v with
  | .vpromiseOk x =>
    match f x with
    | none => none
    | some o => some (.ok (promiseOfOutcome o))
  | .vpromiseErr e => some (.ok (.vpromiseErr e))
  | _ => some (.error .vTypeError)

/-- `v.catch(f)`: on a rejected promise run `f` with the reason and flatten; a
fulfilled promise passes through; `.catch` on a non-promise is a TypeError. -/
def catchRun (v : JSVal) (f : JSVal → Res) : Res :=
  match v with
  | .vpromiseOk x => some (.ok (.vpromiseOk x))
  | .vpromiseErr e =>
    match f e with
    | none => none
    | some o => some (.ok (promiseOfOutcome o))
  | _ => some (.error .vTypeError)

/-- `export function abortWith(result) { throw { code: abortExceptionCode, result } }`. -/
def abortWith (result : JSVal) : Res :=
  some (.error (.sigAbort result))

/-- `export function stopPropagationWith(result) { return { code: stopPropagationExceptionCode, result } }`. -/
def stopPropagationWith (result : JSVal) : JSVal :=
  .sigStop result

/-- The per-invocation toolkit object handed to handlers with
`injectToolkit` (lines 66-87 and 109-124 of the source).  The invocation-time
getters `next` and `abort` are the fields of the same names. -/
structure Toolkit where
  nextWith : List JSVal → Res
  abortWith : JSVal → Res
  jumpTo : String → List JSVal → Res
  next : Res
  abort : Res

/-- A user handler body: either a plain handler (called with the forwarded
arguments only) or a toolkit handler (called with the arguments plus the
toolkit, as the engine does when `meta.injectToolkit` is set). -/
inductive HFn : Type where
  | plain : (List JSVal → Res) → HFn
  | withToolkit : (List JSVal → Toolkit → Res) → HFn

/-- A raw user handler prior to wrapping.  `isAsyncFn` models
`handler.constructor.name === 'AsyncFunction'` (the declared nature of the
function, not anything about its return value); `name` models
`handler.meta.name`. -/
structure UserHandler : Type where
  hfn : HFn
  isAsyncFn : Bool
  name : Option String

/-- `meta.injectToolkit` of a handler, as the engine dispatches on it. -/
def UserHandler.injectToolkit (h : UserHandler) : Bool :=
  match h.hfn with
  | .plain _ => false
  | .withToolkit _ => true

/-- `function isFnAsync(handler) { return handler.constructor.name === 'AsyncFunction' }`. -/
def isFnAsync (h : UserHandler) : Bool :=
  h.isAsyncFn

/-- A plain (non-toolkit) handler with body `f` and optional name. -/
def mkPlain (f : List JSVal → Res) (nm : Option String) : UserHandler :=
  ⟨.plain f, false, nm⟩

/-- A synchronous, never-throwing, value-level handler: the mathematical
reading of "synchronous handler" used by the composition property. -/
def mkSyncH (g : List JSVal → JSVal) : UserHandler :=
  mkPlain (fun args => some (.ok (g args))) none

/-- A toolkit handler that immediately calls `toolkit.jumpTo(nm, jargs)`. -/
def jumperH (nm : String) (jargs : List JSVal) : UserHandler :=
  ⟨.withToolkit (fun _ tk => tk.jumpTo nm jargs), false, none⟩

/-- The engine-assigned `handler.__meta__` record (lines 153-156). -/
structure HMeta : Type where
  isAsync : Bool
  shouldBeTreatAsAsync : Bool
  deriving DecidableEq, Repr

/-- The retroactive contagion mark (line 161 of the source). -/
def markTreat (m : HMeta) : HMeta :=
  ⟨m.isAsync, true⟩

/-- One step of building the `__meta__` records for a chain: `decorateHandler`
first marks every already-wrapped handler when the new one is async
(lines 158-163), then appends the new handler's own metadata. -/
def buildMetasStep (ms : List HMeta) (h : UserHandler) : List HMeta :=
  (if isFnAsync h then ms.map markTreat else ms) ++ [⟨isFnAsync h, isFnAsync h⟩]

/-- The final `__meta__` records of a fully built chain, in handler order. -/
def buildMetas (phs : List UserHandler) : List HMeta :=
  phs.foldl buildMetasStep []

/-- The `__meta__` record read from the shared array at invocation time. -/
def metaOf (phs : List UserHandler) (j : Nat) : HMeta :=
  ((buildMetas phs).get? j).getD ⟨false, false⟩

/-- A registered entry of `globalHandlersByName`: the wrapped handler closure
is identified by its chain and its position in that chain. -/
structure RegEntry : Type where
  phs : List UserHandler
  pos : Nat

/-- The factory's shared `globalHandlersByName` object.  Registration conses
in front; lookup takes the first hit, so a later registration of the same
name shadows (overwrites) an earlier one, as assignment to the shared object
does in the source. -/
abbrev Registry := List (String × RegEntry)

/-- Property read `globalHandlersByName[name]` (first, i.e. most recent,
binding wins). -/
def lookupReg (reg : Registry) (nm : String) : Option RegEntry :=
  match reg with
  | [] => none
  | (n, e) :: rest => if n = nm then some e else lookupReg rest nm

/-- `handler.meta.name` of the handler at position `i`, if any. -/
def nameAt (phs : List UserHandler) (i : Nat) : Option String :=
  (phs.get? i).bind UserHandler.name

/-- One registration step (lines 149-151): a named handler is written into the
shared registry when it is wrapped. -/
def regStep (phs : List UserHandler) (reg : Registry) (i : Nat) : Registry :=
  match nameAt phs i with
  | some nm => (nm, ⟨phs, i⟩) :: reg
  | none => reg

/-- Building a pipeline registers each of its named handlers, in chain order,
into the factory's shared registry. -/
def registerPipeline (reg : Registry) (phs : List UserHandler) : Registry :=
  (List.range phs.length).foldl (regStep phs) reg

/-- Line 105: `args[0]?.code === stopPropagationExceptionCode`. -/
def stopCheck (args : List JSVal) : Bool :=
  match args.head? with
  | some v => v.code == some stopPropagationExceptionCode
  | none => false

/-- Line 106: `args[0].result` of a detected stop-propagation first argument. -/
def stopResult (args : List JSVal) : JSVal :=
  match args.head? with
  | some (.sigStop r) => r
  | _ => .vundefined

/-- The body of the wrapped handler produced by `decorateHandler`
(lines 104-147), with its free references made explicit: `rest` is the suffix
of the shared handler array after this handler (so the successor exists
exactly when `rest` is nonempty), `treatNext` is the successor's
`__meta__.shouldBeTreatAsAsync` flag as read at invocation time, and `next`
invokes the wrapped successor.  The factory is built with the default empty
decorator list, so `decoratedUserHandler` is the user handler itself. -/
def handlerBody (h : UserHandler) (rest : List UserHandler) (treatNext : Bool)
    (next : List JSVal → Res) (args : List JSVal) : Res :=
  if stopCheck args then some (.ok (stopResult args))
  else
    match h.hfn with
    | .withToolkit f =>
      f args
        ⟨fun args2 =>
            match rest with
            | [] => some (.ok .vnull)
            | _ :: _ => next args2,
          abortWith,
          fun nm2 args2 => some (.error (.sigJump nm2 args2)),
          (match rest with
            | [] => some (.ok .vnull)
            | _ :: _ => next args),
          abortWith (args.getD 0 .vundefined)⟩
    | .plain f =>
      match rest with
      | [] => f args
      | _ :: _ =>
        if h.isAsyncFn then
          match f args with
          | some (.ok r) => thenRun r (fun v => next [v])
          | o => o
        else if treatNext then
          match f args with
          | some (.ok r) => thenRun (promiseResolve r) (fun v => next [v])
          | o => o
        else
          match f args with
          | some (.ok r) => next [r]
          | o => o

/-- The wrapped handler at position `k` of the fully built chain `phs`,
applied to `args`; `rest` is `phs.drop k`, so that `rest.head` is this
handler.  Invoking a position past the end of the chain models calling
`undefined`. -/
def runFromAux (phs : List UserHandler) : List UserHandler → Nat → List JSVal → Res
  | [], _, _ => some (.error .vTypeError)
  | h :: rest, k, args =>
    handlerBody h rest (metaOf phs (k + 1)).shouldBeTreatAsAsync
      (fun args2 => runFromAux phs rest (k + 1) args2) args

/-- Invoking the wrapped handler at position `k` of chain `phs`. -/
def runFrom (phs : List UserHandler) (k : Nat) (args : List JSVal) : Res :=
  runFromAux phs (phs.drop k) k args

/-- `captureException` (lines 38-52) with the jump branch abstracted: on an
abort signal return its payload, on a jump signal run the given jump handler,
otherwise rethrow. -/
def captureExceptionWith (onJump : String → List JSVal → Res) (e : JSVal) : Res :=
  match e with
  | .sigAbort r => some (.ok r)
  | .sigJump nm args2 => onJump nm args2
  | _ => some (.error e)

/-- `decorateWithExceptionCapture` (lines 168-190), invoked on arguments
`args`.  `target = none` models wrapping `undefined` (a missing registry
entry or an empty chain): invoking that wrapper dereferences
`undefined.__meta__` and throws a TypeError before anything else.  `fuel`
bounds the depth of jump chains; each interception of a jump consumes one
unit. -/
def decorateWithExceptionCapture (reg : Registry) (fuel : Nat) (target : Option RegEntry)
    (args : List JSVal) : Res :=
  match target with
  | none => some (.error .vTypeError)
  | some en =>
    match fuel with
    | 0 => none
    | fuel' + 1 =>
      let cap : JSVal → Res :=
        captureExceptionWith
          (fun nm args2 => decorateWithExceptionCapture reg fuel' (lookupReg reg nm) args2)
      let m := metaOf en.phs en.pos
      if m.isAsync then
        match runFrom en.phs en.pos args with
        | none => none
        | some (.error e) => some (.error e)
        | some (.ok r) => catchRun r cap
      else if m.shouldBeTreatAsAsync then
        match runFrom en.phs en.pos args with
        | none => none
        | some (.error e) => some (.error e)
        | some (.ok r) => catchRun (promiseResolve r) cap
      else
        match runFrom en.phs en.pos args with
        | none => none
        | some (.ok r) => some (.ok r)
        | some (.error e) => cap e

/-- `captureException` proper: the interpreter applied to a thrown value, with
jump targets resolved through the factory registry and wrapped by the
exception capture, as `toolkit.jumpTo` + `captureException` do jointly. -/
def captureException (reg : Registry) (fuel : Nat) (e : JSVal) : Res :=
  captureExceptionWith
    (fun nm args2 => decorateWithExceptionCapture reg fuel (lookupReg reg nm) args2) e

/-- `sequenceOf(handlers)` returns `handlers[0]`, which is `undefined` for the
empty list (lines 236-242). -/
def sequenceOf (phs : List UserHandler) : Option RegEntry :=
  match phs with
  | [] => none
  | _ :: _ => some ⟨phs, 0⟩

/-- Invoking the handler returned by `sequenceOf` (invoking `undefined` is a
TypeError). -/
def invokeSequence (phs : List UserHandler) (args : List JSVal) : Res :=
  match sequenceOf phs with
  | none => some (.error .vTypeError)
  | some en => runFrom en.phs en.pos args

/-- `entrySequenceOf(handlers)` returns
`decorateWithExceptionCapture(handlers[0])` (lines 226-234); this models its
invocation on `args` with the factory registry `reg`. -/
def entrySequenceOf (reg : Registry) (phs : List UserHandler) (args : List JSVal)
    (fuel : Nat) : Res :=
  decorateWithExceptionCapture reg fuel (sequenceOf phs) args

/-- The argument list reaching position `gs.length` of a chain whose first
`gs.length` handlers are the value-level synchronous handlers `gs`: handler 0
receives the original arguments, each later handler its predecessor's return
value as sole argument. -/
def chainArgs (gs : List (List JSVal → JSVal)) (args : List JSVal) : List JSVal :=
  match gs with
  | [] => args
  | g :: t => chainArgs t [g args]

/-- No argument list fed into the value-level prefix `gs` starts with a
stop-propagation object (so every handler of the prefix actually runs). -/
def chainOK (gs : List (List JSVal → JSVal)) (args : List JSVal) : Bool :=
  match gs with
  | [] => true
  | g :: t => !stopCheck args && chainOK t [g args]

/-- The most recently registered position carrying name `nm` in a chain. -/
def lastNamedIdx (phs : List UserHandler) (nm : String) : Option Nat :=
  (List.range phs.length).reverse.find? (fun i => nameAt phs i == some nm)

/-- A synchronous handler that immediately calls the exported `abortWith(7)`. -/
def abortingH : UserHandler :=
  mkPlain (fun _ => abortWith (.vnum 7)) none

/-- A synchronous handler that immediately calls the exported `abortWith(9)`. -/
def aborting9H : UserHandler :=
  mkPlain (fun _ => abortWith (.vnum 9)) none

/-- `async () => null`: classified asynchronous by declaration, returns a
fulfilled promise. -/
def asyncOkH : UserHandler :=
  ⟨.plain (fun _ => some (.ok (.vpromiseOk .vnull))), true, none⟩

/-- A handler registered under the name `x` that returns the number 42. -/
def xH : UserHandler :=
  mkPlain (fun _ => some (.ok (.vnum 42))) (some ("x"))

/-- The factory registry after building a pipeline containing `xH`. -/
def regX : Registry :=
  registerPipeline [] [xH]

/-! ### Structure of the built `__meta__` records -/

theorem markTreat_markTreat (m : HMeta) : markTreat (markTreat m) = markTreat m := rfl

theorem map_markTreat_idem (l : List HMeta) :
    (l.map markTreat).map markTreat = l.map markTreat := by
  rw [List.map_map]
  exact List.map_congr_left (fun a _ => rfl)

theorem buildMetas_acc (phs : List UserHandler) : ∀ acc : List HMeta,
    phs.foldl buildMetasStep acc =
      (if phs.any isFnAsync then acc.map markTreat else acc) ++ buildMetas phs := by
  induction phs with
  | nil =>
    intro acc
    simp [buildMetas]
  | cons h t ih =>
    intro acc
    have hbm : buildMetas (h :: t) = t.foldl buildMetasStep (buildMetasStep [] h) := rfl
    simp only [List.foldl_cons, List.any_cons, hbm]
    rw [ih (buildMetasStep acc h), ih (buildMetasStep [] h)]
    simp only [buildMetasStep]
    rcases Bool.eq_false_or_eq_true (isFnAsync h) with ha | ha <;>
      rcases Bool.eq_false_or_eq_true (t.any isFnAsync) with ht | ht <;>
      simp [ha, ht, List.map_append, map_markTreat_idem, markTreat]

theorem buildMetas_cons (h : UserHandler) (t : List UserHandler) :
    buildMetas (h :: t) =
      (⟨isFnAsync h, isFnAsync h || t.any isFnAsync⟩ : HMeta) :: buildMetas t := by
  have hbm : buildMetas (h :: t) = t.foldl buildMetasStep (buildMetasStep [] h) := rfl
  rw [hbm, buildMetas_acc]
  simp only [buildMetasStep]
  rcases Bool.eq_false_or_eq_true (isFnAsync h) with ha | ha <;>
    rcases Bool.eq_false_or_eq_true (t.any isFnAsync) with ht | ht <;>
    simp [ha, ht, markTreat]

theorem buildMetas_length (phs : List UserHandler) :
    (buildMetas phs).length = phs.length := by
  induction phs with
  | nil => rfl
  | cons h t ih =>
    rw [buildMetas_cons]
    simp [ih]

theorem buildMetas_get (phs : List UserHandler) (j : Nat) (h : UserHandler)
    (hj : phs.get? j = some h) :
    (buildMetas phs).get? j =
      some ⟨isFnAsync h, (phs.drop j).any isFnAsync⟩ := by
  induction phs generalizing j with
  | nil => simp at hj
  | cons hd t ih =>
    cases j with
    | zero =>
      rw [List.get?_cons_zero] at hj
      cases hj
      rw [buildMetas_cons]
      simp
    | succ j =>
      rw [List.get?_cons_succ] at hj
      rw [buildMetas_cons, List.get?_cons_succ, List.drop_succ_cons]
      exact ih j hj

theorem metaOf_eq (phs : List UserHandler) (j : Nat) (h : UserHandler)
    (hj : phs.get? j = some h) :
    metaOf phs j = ⟨isFnAsync h, (phs.drop j).any isFnAsync⟩ := by
  unfold metaOf
  rw [buildMetas_get phs j h hj]
  rfl

theorem metaOf_eq_default (phs : List UserHandler) (j : Nat)
    (hj : phs.get? j = none) :
    metaOf phs j = ⟨false, false⟩ := by
  have hlen : (buildMetas phs).get? j = none := by
    rw [List.get?_eq_none] at hj ⊢
    rwa [buildMetas_length]
  unfold metaOf
  rw [hlen]
  rfl

theorem metaOf_allSync (phs : List UserHandler)
    (hsync : phs.any isFnAsync = false) (j : Nat) :
    metaOf phs j = ⟨false, false⟩ := by
  cases hj : phs.get? j with
  | none => exact metaOf_eq_default phs j hj
  | some h =>
    rw [metaOf_eq phs j h hj]
    have h1 : isFnAsync h = false := by
      rw [List.any_eq_false] at hsync
      have := hsync h (List.get?_mem hj)
      simpa using this
    have h2 : (phs.drop j).any isFnAsync = false := by
      rw [List.any_eq_false] at hsync ⊢
      intro x hx
      exact hsync x (List.drop_subset j phs hx)
    rw [h1, h2]

theorem metaOf_cons_succ (h : UserHandler) (t : List UserHandler) (j : Nat) :
    metaOf (h :: t) (j + 1) = metaOf t j := by
  simp [metaOf, buildMetas_cons]

/-! ### Position shift: a wrapped suffix behaves the same in any chain that
has the same handlers from that position on -/

theorem runFromAux_shift (h0 : UserHandler) (phs : List UserHandler) :
    ∀ (rest : List UserHandler) (k : Nat) (args : List JSVal),
      runFromAux (h0 :: phs) rest (k + 1) args = runFromAux phs rest k args := by
  intro rest
  induction rest with
  | nil =>
    intro k args
    rfl
  | cons h rest2 ih =>
    intro k args
    show handlerBody h rest2 (metaOf (h0 :: phs) (k + 1 + 1)).shouldBeTreatAsAsync
        (fun args2 => runFromAux (h0 :: phs) rest2 (k + 1 + 1) args2) args
      = handlerBody h rest2 (metaOf phs (k + 1)).shouldBeTreatAsAsync
        (fun args2 => runFromAux phs rest2 (k + 1) args2) args
    rw [metaOf_cons_succ]
    congr 1
    funext args2
    exact ih (k + 1) args2

theorem runFrom_cons_succ (h0 : UserHandler) (phs : List UserHandler) (k : Nat)
    (args : List JSVal) :
    runFrom (h0 :: phs) (k + 1) args = runFrom phs k args := by
  unfold runFrom
  rw [List.drop_succ_cons]
  exact runFromAux_shift h0 phs (phs.drop k) k args

/-! ### Invocation of synchronous chains -/

theorem runFromAux_cons (phs : List UserHandler) (h : UserHandler)
    (rest : List UserHandler) (k : Nat) (args : List JSVal) :
    runFromAux phs (h :: rest) k args
      = handlerBody h rest (metaOf phs (k + 1)).shouldBeTreatAsAsync
          (fun args2 => runFromAux phs rest (k + 1) args2) args := rfl

theorem any_map_mkSyncH (gs : List (List JSVal → JSVal)) :
    (gs.map mkSyncH).any isFnAsync = false := by
  induction gs with
  | nil => rfl
  | cons g t ih => simp [mkSyncH, mkPlain, isFnAsync, ih]

theorem runFrom_plain_last (f : List JSVal → Res) (nm : Option String)
    (args : List JSVal) (hstop : stopCheck args = false) :
    runFrom [mkPlain f nm] 0 args = f args := by
  unfold runFrom
  rw [List.drop_zero, runFromAux_cons]
  simp [handlerBody, hstop, mkPlain]

theorem runFrom_plain_step (f : List JSVal → Res) (nm : Option String)
    (h2 : UserHandler) (t2 : List UserHandler) (args : List JSVal) (r : JSVal)
    (hsync : (h2 :: t2).any isFnAsync = false)
    (hstop : stopCheck args = false) (hr : f args = some (.ok r)) :
    runFrom (mkPlain f nm :: h2 :: t2) 0 args = runFrom (h2 :: t2) 0 [r] := by
  have hm : metaOf (mkPlain f nm :: h2 :: t2) (0 + 1) = (⟨false, false⟩ : HMeta) := by
    rw [metaOf_cons_succ]
    exact metaOf_allSync _ hsync 0
  unfold runFrom
  rw [List.drop_zero, List.drop_zero, runFromAux_cons, hm]
  simp only [handlerBody, hstop, mkPlain, Bool.false_eq_true, if_false]
  rw [hr]
  exact runFromAux_shift (mkPlain f nm) (h2 :: t2) (h2 :: t2) 0 [r]

theorem runFrom_stop (phs : List UserHandler) (k : Nat) (hk : k < phs.length)
    (R : JSVal) (rest2 : List JSVal) :
    runFrom phs k (stopPropagationWith R :: rest2) = some (.ok R) := by
  have hne : phs.drop k ≠ [] := by
    rw [Ne, List.drop_eq_nil_iff]
    omega
  obtain ⟨h, r, hdr⟩ : ∃ h r, phs.drop k = h :: r := by
    cases hd : phs.drop k with
    | nil => exact absurd hd hne
    | cons a b => exact ⟨a, b, rfl⟩
  unfold runFrom
  rw [hdr, runFromAux_cons]
  simp [handlerBody, stopCheck, stopPropagationWith, JSVal.code, stopResult]

theorem runFrom_jumper_head (nm : String) (jargs : List JSVal)
    (t : List UserHandler) (args : List JSVal) (hstop : stopCheck args = false) :
    runFrom (jumperH nm jargs :: t) 0 args = some (.error (.sigJump nm jargs)) := by
  unfold runFrom
  rw [List.drop_zero, runFromAux_cons]
  simp [handlerBody, hstop, jumperH]

theorem runFrom_thread (gs : List (List JSVal → JSVal)) :
    ∀ (rest : List UserHandler) (args : List JSVal),
      rest ≠ [] → rest.any isFnAsync = false → chainOK gs args = true →
      runFrom (gs.map mkSyncH ++ rest) 0 args = runFrom rest 0 (chainArgs gs args) := by
  induction gs with
  | nil =>
    intro rest args _ _ _
    simp [chainArgs]
  | cons g t ih =>
    intro rest args hrest hsync hok
    obtain ⟨h2, t2, hr2⟩ : ∃ h2 t2, t.map mkSyncH ++ rest = h2 :: t2 := by
      cases hd : t.map mkSyncH ++ rest with
      | nil =>
        rw [List.append_eq_nil] at hd
        exact absurd hd.2 hrest
      | cons a b => exact ⟨a, b, rfl⟩
    have hok2 : (!stopCheck args && chainOK t [g args]) = true := hok
    rw [Bool.and_eq_true, Bool.not_eq_true'] at hok2
    have hsync2 : (h2 :: t2).any isFnAsync = false := by
      rw [← hr2, List.any_append, any_map_mkSyncH, hsync]
      rfl
    have hstep : runFrom (mkSyncH g :: h2 :: t2) 0 args = runFrom (h2 :: t2) 0 [g args] :=
      runFrom_plain_step _ none h2 t2 args (g args) hsync2 hok2.1 rfl
    calc runFrom ((g :: t).map mkSyncH ++ rest) 0 args
        = runFrom (mkSyncH g :: h2 :: t2) 0 args := by rw [List.map_cons, List.cons_append, hr2]
      _ = runFrom (h2 :: t2) 0 [g args] := hstep
      _ = runFrom (t.map mkSyncH ++ rest) 0 [g args] := by rw [hr2]
      _ = runFrom rest 0 (chainArgs t [g args]) := ih rest [g args] hrest hsync hok2.2
      _ = runFrom rest 0 (chainArgs (g :: t) args) := rfl

/-! ### The entry wrapper on synchronous chains -/

theorem sequenceOf_of_ne_nil (phs : List UserHandler) (hne : phs ≠ []) :
    sequenceOf phs = some ⟨phs, 0⟩ := by
  cases phs with
  | nil => exact absurd rfl hne
  | cons h t => rfl

theorem entry_sync (reg : Registry) (fuel : Nat) (phs : List UserHandler)
    (args : List JSVal) (hne : phs ≠ []) (hsync : phs.any isFnAsync = false) :
    entrySequenceOf reg phs args (fuel + 1) =
      match runFrom phs 0 args with
      | none => none
      | some (.ok r) => some (.ok r)
      | some (.error e) => captureException reg fuel e := by
  have hm : metaOf phs 0 = (⟨false, false⟩ : HMeta) := metaOf_allSync phs hsync 0
  unfold entrySequenceOf
  rw [sequenceOf_of_ne_nil phs hne]
  simp only [decorateWithExceptionCapture, hm, captureException]
  rfl

/-! ### The shared name registry -/

theorem lookupReg_regStep (phs : List UserHandler) (reg : Registry) (i : Nat)
    (nm : String) :
    lookupReg (regStep phs reg i) nm =
      if nameAt phs i = some nm then some ⟨phs, i⟩ else lookupReg reg nm := by
  unfold regStep
  cases hni : nameAt phs i with
  | none => simp
  | some nm2 =>
    by_cases h : nm2 = nm
    · subst h
      simp [lookupReg]
    · simp [lookupReg, h, Option.some.injEq]

theorem lookup_foldl_regStep (phs : List UserHandler) :
    ∀ (l : List Nat) (reg : Registry) (nm : String),
      lookupReg (l.foldl (regStep phs) reg) nm =
        match l.reverse.find? (fun i => nameAt phs i == some nm) with
        | some i => some ⟨phs, i⟩
        | none => lookupReg reg nm := by
  intro l
  induction l with
  | nil =>
    intro reg nm
    rfl
  | cons i t ih =>
    intro reg nm
    rw [List.foldl_cons, ih (regStep phs reg i) nm, List.reverse_cons, List.find?_append]
    cases hf : t.reverse.find? (fun j => nameAt phs j == some nm) with
    | some j => simp [hf]
    | none =>
      simp only [hf, Option.none_orElse]
      rw [lookupReg_regStep]
      by_cases hni : nameAt phs i = some nm
      · simp [List.find?_cons, hni]
      · have : (nameAt phs i == some nm) = false := by
          simp [hni]
        simp [List.find?_cons, this, hni]

theorem lookup_registerPipeline (reg : Registry) (phs : List UserHandler)
    (nm : String) :
    lookupReg (registerPipeline reg phs) nm =
      match lastNamedIdx phs nm with
      | some i => some ⟨phs, i⟩
      | none => lookupReg reg nm :=
  lookup_foldl_regStep phs (List.range phs.length) reg nm

theorem find_rev_range_eq_some (p : Nat → Bool) :
    ∀ (n q : Nat), q < n → p q = true → (∀ i, q < i → i < n → p i = false) →
      (List.range n).reverse.find? p = some q := by
  intro n
  induction n with
  | zero =>
    intro q hq
    omega
  | succ n ih =>
    intro q hq hpq hlast
    rw [List.range_succ, List.reverse_append, List.reverse_singleton,
      List.singleton_append]
    rcases Nat.lt_or_ge q n with h | h
    · have hn : p n = false := hlast n h (Nat.lt_succ_self n)
      rw [List.find?_cons, hn]
      exact ih q h hpq (fun i h1 h2 => hlast i h1 (Nat.lt_succ_of_lt h2))
    · have hqn : q = n := by omega
      subst hqn
      rw [List.find?_cons, hpq]

theorem find_rev_range_eq_none (p : Nat → Bool) :
    ∀ n : Nat, (∀ i, i < n → p i = false) →
      (List.range n).reverse.find? p = none := by
  intro n
  induction n with
  | zero =>
    intro _
    rfl
  | succ n ih =>
    intro h
    rw [List.range_succ, List.reverse_append, List.reverse_singleton,
      List.singleton_append, List.find?_cons, h n (Nat.lt_succ_self n)]
    exact ih (fun i hi => h i (Nat.lt_succ_of_lt hi))

theorem lastNamedIdx_eq_some (phs : List UserHandler) (nm : String) (q : Nat)
    (hq : nameAt phs q = some nm)
    (hlast : ∀ i, q < i → nameAt phs i ≠ some nm) :
    lastNamedIdx phs nm = some q := by
  have hqlen : q < phs.length := by
    by_contra hge
    have : phs.get? q = none := by
      rw [List.get?_eq_none]
      omega
    rw [nameAt, this] at hq
    simp at hq
  refine find_rev_range_eq_some _ phs.length q hqlen (by simp [hq]) ?_
  intro i h1 _
  simp [hlast i h1]

theorem lastNamedIdx_eq_none (phs : List UserHandler) (nm : String)
    (hnone : ∀ i, nameAt phs i ≠ some nm) :
    lastNamedIdx phs nm = none := by
  refine find_rev_range_eq_none _ phs.length ?_
  intro i _
  simp [hnone i]

/-! ### Further helper lemmas -/

theorem drop_cons_of_get {α : Type} (phs : List α) (j : Nat) (h : α)
    (hj : phs.get? j = some h) :
    phs.drop j = h :: phs.drop (j + 1) := by
  induction phs generalizing j with
  | nil => simp at hj
  | cons a t ih =>
    cases j with
    | zero =>
      rw [List.get?_cons_zero] at hj
      cases hj
      simp
    | succ j =>
      rw [List.get?_cons_succ] at hj
      rw [List.drop_succ_cons, List.drop_succ_cons]
      exact ih j hj

theorem metaOf_treat_of_le_async (phs : List UserHandler) (j k : Nat)
    (hjk : j ≤ k) (hk : k < phs.length)
    (ha : (metaOf phs k).isAsync = true) :
    (metaOf phs j).shouldBeTreatAsAsync = true := by
  obtain ⟨hku, hget⟩ : ∃ hku, phs.get? k = some hku := by
    cases h2 : phs.get? k with
    | none =>
      rw [List.get?_eq_none] at h2
      omega
    | some x => exact ⟨x, rfl⟩
  have hai : isFnAsync hku = true := by
    rw [metaOf_eq phs k hku hget] at ha
    exact ha
  obtain ⟨hjv, hjget⟩ : ∃ hjv, phs.get? j = some hjv := by
    cases h2 : phs.get? j with
    | none =>
      rw [List.get?_eq_none] at h2
      omega
    | some x => exact ⟨x, rfl⟩
  rw [metaOf_eq phs j hjv hjget]
  have hdk : (phs.drop j).get? (k - j) = some hku := by
    rw [List.get?_drop]
    rwa [Nat.add_sub_cancel' hjk]
  have hmem : hku ∈ phs.drop j := List.get?_mem hdk
  show (phs.drop j).any isFnAsync = true
  rw [List.any_eq_true]
  exact ⟨hku, hmem, hai⟩

theorem runFrom_plain_throw (f : List JSVal → Res) (nm : Option String)
    (h2 : UserHandler) (t2 : List UserHandler) (args : List JSVal) (e : JSVal)
    (hsync : (h2 :: t2).any isFnAsync = false)
    (hstop : stopCheck args = false) (hr : f args = some (.error e)) :
    runFrom (mkPlain f nm :: h2 :: t2) 0 args = some (.error e) := by
  have hm : metaOf (mkPlain f nm :: h2 :: t2) (0 + 1) = (⟨false, false⟩ : HMeta) := by
    rw [metaOf_cons_succ]
    exact metaOf_allSync _ hsync 0
  unfold runFrom
  rw [List.drop_zero, runFromAux_cons, hm]
  simp only [handlerBody, hstop, mkPlain, Bool.false_eq_true, if_false]
  rw [hr]

theorem res_error_ne_ok (e v : JSVal) :
    (some (Except.error e) : Res) ≠ some (Except.ok v) := by
  intro h
  injection h with h2
  exact Except.noConfusion h2

/-! ### Supplementary theorems: the interpreter on all-synchronous chains -/

/-- On an all-synchronous entry pipeline, an abort raised by the handler after
the value-level prefix `gs` is captured by the entry wrapper and becomes the
pipeline's result. -/
theorem sync_abort_is_captured (gs : List (List JSVal → JSVal))
    (suffix : List UserHandler) (R : JSVal) (reg : Registry)
    (args : List JSVal) (fuel : Nat)
    (hsync : suffix.any isFnAsync = false)
    (hok : chainOK gs args = true)
    (hstop2 : stopCheck (chainArgs gs args) = false) :
    entrySequenceOf reg (gs.map mkSyncH ++ mkPlain (fun _ => abortWith R) none :: suffix)
        args (fuel + 1) = some (.ok R) := by
  have hne : gs.map mkSyncH ++ mkPlain (fun _ => abortWith R) none :: suffix ≠ [] := by
    simp
  have hchsync :
      (gs.map mkSyncH ++ mkPlain (fun _ => abortWith R) none :: suffix).any isFnAsync
        = false := by
    simp [List.any_append, any_map_mkSyncH, hsync, mkPlain, isFnAsync]
  have hrun :
      runFrom (gs.map mkSyncH ++ mkPlain (fun _ => abortWith R) none :: suffix) 0 args
        = some (.error (.sigAbort R)) := by
    rw [runFrom_thread gs _ args (by simp) (by simp [hsync, mkPlain, isFnAsync]) hok]
    cases suffix with
    | nil => exact runFrom_plain_last _ none _ hstop2
    | cons s1 s2 =>
      refine runFrom_plain_throw _ none s1 s2 _ _ ?_ hstop2 rfl
      simpa using hsync
  rw [entry_sync reg fuel _ args hne hchsync, hrun]
  rfl

/-- On an all-synchronous entry pipeline, a `jumpTo` raised by the handler
after the value-level prefix `gs` makes the entry wrapper invoke the
exception-capture wrapping of the registry entry for the jumped-to name (the
wrapped `undefined` when the name is unregistered). -/
theorem sync_jump_dispatch (gs : List (List JSVal → JSVal))
    (suffix : List UserHandler) (nm : String) (jargs : List JSVal)
    (reg : Registry) (args : List JSVal) (fuel : Nat)
    (hsync : suffix.any isFnAsync = false)
    (hok : chainOK gs args = true)
    (hstop2 : stopCheck (chainArgs gs args) = false) :
    entrySequenceOf reg (gs.map mkSyncH ++ jumperH nm jargs :: suffix) args (fuel + 1)
      = decorateWithExceptionCapture reg fuel (lookupReg reg nm) jargs := by
  have hne : gs.map mkSyncH ++ jumperH nm jargs :: suffix ≠ [] := by
    simp
  have hchsync :
      (gs.map mkSyncH ++ jumperH nm jargs :: suffix).any isFnAsync = false := by
    simp [List.any_append, any_map_mkSyncH, hsync, jumperH, isFnAsync]
  have hrun :
      runFrom (gs.map mkSyncH ++ jumperH nm jargs :: suffix) 0 args
        = some (.error (.sigJump nm jargs)) := by
    rw [runFrom_thread gs _ args (by simp) (by simp [hsync, jumperH, isFnAsync]) hok]
    exact runFrom_jumper_head nm jargs suffix _ hstop2
  rw [entry_sync reg fuel _ args hne hchsync, hrun]
  rfl

/-- On an all-synchronous entry pipeline, `jumpTo` of an unregistered name
raises a TypeError (from invoking the exception-capture wrapping of
`undefined`) that propagates, uninterpreted, to the caller. -/
theorem sync_jump_missing_raises_type_error (gs : List (List JSVal → JSVal))
    (suffix : List UserHandler) (nm : String) (jargs : List JSVal)
    (reg : Registry) (args : List JSVal) (fuel : Nat)
    (hsync : suffix.any isFnAsync = false)
    (hok : chainOK gs args = true)
    (hstop2 : stopCheck (chainArgs gs args) = false)
    (hmiss : lookupReg reg nm = none) :
    entrySequenceOf reg (gs.map mkSyncH ++ jumperH nm jargs :: suffix) args (fuel + 1)
      = some (.error JSVal.vTypeError) := by
  rw [sync_jump_dispatch gs suffix nm jargs reg args fuel hsync hok hstop2, hmiss]
  simp [decorateWithExceptionCapture]

/-! ### The claims -/

/-- C1: For every chain of N synchronous handlers, none requesting toolkit
injection, invoking the handler returned by `entrySequenceOf` (or
`sequenceOf`) on arguments `args` returns exactly the N-fold function
composition `h_N(...h_2(h_1(args)))`: handler 1 receives the original
arguments and each later handler receives its predecessor's return value as
sole argument.  The chain is `gs ++ [g]`; `chainArgs gs args` is the
single-argument list `[h_{N-1}(...h_1(args))]` reaching the last handler, so
the composition's value is `g (chainArgs gs args)`.  The hypotheses state
that no forwarded value is a stop-propagation signal object (values that the
engine, by C7, diverts out of the plain composition path). -/
theorem sequences_compose_synchronous_chains
    (gs : List (List JSVal → JSVal)) (g : List JSVal → JSVal) (reg : Registry)
    (args : List JSVal) (fuel : Nat)
    (hok : chainOK gs args = true)
    (hlast : stopCheck (chainArgs gs args) = false) :
    invokeSequence ((gs ++ [g]).map mkSyncH) args
        = some (.ok (g (chainArgs gs args)))
      ∧ entrySequenceOf reg ((gs ++ [g]).map mkSyncH) args (fuel + 1)
        = some (.ok (g (chainArgs gs args))) := by
  have hne : (gs ++ [g]).map mkSyncH ≠ [] := by
    simp
  have hrun : runFrom ((gs ++ [g]).map mkSyncH) 0 args
      = some (.ok (g (chainArgs gs args))) := by
    rw [List.map_append, List.map_singleton,
      runFrom_thread gs [mkSyncH g] args (by simp) (by simp [mkSyncH, mkPlain, isFnAsync]) hok]
    exact runFrom_plain_last _ none _ hlast
  constructor
  · unfold invokeSequence
    rw [sequenceOf_of_ne_nil _ hne]
    exact hrun
  · rw [entry_sync reg fuel _ args hne (any_map_mkSyncH (gs ++ [g])), hrun]

/-- C1 witness: a concrete two-handler synchronous chain (constant handlers
returning 4 and then 40) invoked on `[3]` composes through both `sequenceOf`
and `entrySequenceOf`, with every hypothesis discharged at this input. -/
theorem sequences_compose_synchronous_chains_witness :
    chainOK [fun _ => JSVal.vnum 4] [JSVal.vnum 3] = true
      ∧ stopCheck (chainArgs [fun _ => JSVal.vnum 4] [JSVal.vnum 3]) = false
      ∧ (invokeSequence (([fun _ => JSVal.vnum 4] ++ [fun _ => JSVal.vnum 40]).map mkSyncH)
            [JSVal.vnum 3]
          = some (.ok (JSVal.vnum 40))
        ∧ entrySequenceOf []
            (([fun _ => JSVal.vnum 4] ++ [fun _ => JSVal.vnum 40]).map mkSyncH)
            [JSVal.vnum 3] (0 + 1)
          = some (.ok (JSVal.vnum 40))) :=
  ⟨rfl, rfl,
    sequences_compose_synchronous_chains [fun _ => JSVal.vnum 4] (fun _ => JSVal.vnum 40)
      [] [JSVal.vnum 3] 0 rfl rfl⟩

/-- C2: evaluation of the code at a failing input.  The claim says no control
signal ever reaches the entry point's caller as a raised condition.  On the
entry pipeline `[sync handler calling abortWith(7), async handler]`, the
first handler is synchronous but marked treat-as-async by contagion, so the
entry wrapper runs `Promise.resolve(handler(...args)).catch(captureException)`;
the abort is raised synchronously while the argument of `Promise.resolve` is
evaluated, before any `.catch` is attached, so the raised abort signal (a
value whose `.code` is the abort signal code) reaches the caller
uninterpreted. -/
theorem entry_leaks_sync_abort_signal :
    entrySequenceOf [] [abortingH, asyncOkH] [.vnum 1] 3
        = some (.error (.sigAbort (.vnum 7)))
      ∧ (JSVal.sigAbort (.vnum 7)).code = some abortExceptionCode :=
  ⟨rfl, rfl⟩

/-- C3: the async-contagion invariant.  After building, if the handler at
position `k` is classified asynchronous, then every handler at a position
`j < k` carries the treat-as-async mark; moreover the (plain, synchronous)
wrapped handler at `j` dispatches by awaiting its result — it wraps it in
`Promise.resolve(...)` and chains the successor as a `.then` continuation. -/
theorem async_contagion_invariant (phs : List UserHandler) (j k : Nat)
    (f : List JSVal → Res) (nm : Option String) (args : List JSVal) (r : JSVal)
    (hjk : j < k) (hk : k < phs.length)
    (ha : (metaOf phs k).isAsync = true)
    (hj : phs.get? j = some (mkPlain f nm))
    (hstop : stopCheck args = false)
    (hr : f args = some (.ok r)) :
    (metaOf phs j).shouldBeTreatAsAsync = true
      ∧ runFrom phs j args
        = thenRun (promiseResolve r) (fun v => runFrom phs (j + 1) [v]) := by
  have htreat1 : (metaOf phs (j + 1)).shouldBeTreatAsAsync = true :=
    metaOf_treat_of_le_async phs (j + 1) k hjk hk ha
  refine ⟨metaOf_treat_of_le_async phs j k (Nat.le_of_lt hjk) hk ha, ?_⟩
  obtain ⟨h2, t2, hdrop2⟩ : ∃ a b, phs.drop (j + 1) = a :: b := by
    have hne : phs.drop (j + 1) ≠ [] := by
      rw [Ne, List.drop_eq_nil_iff]
      omega
    cases hd : phs.drop (j + 1) with
    | nil => exact absurd hd hne
    | cons a b => exact ⟨a, b, rfl⟩
  have hdrop : phs.drop j = mkPlain f nm :: h2 :: t2 := by
    rw [drop_cons_of_get phs j _ hj, hdrop2]
  unfold runFrom
  rw [hdrop, hdrop2, runFromAux_cons, htreat1]
  simp only [handlerBody, hstop, mkPlain, Bool.false_eq_true, if_false, if_true]
  rw [hr]

/-- C3 witness: in the chain `[sync, async]`, position 0 is marked and its
dispatch awaits, with all hypotheses discharged at the concrete input. -/
theorem async_contagion_invariant_witness :
    (0 < 1 ∧ 1 < ([mkPlain (fun _ => some (.ok JSVal.vnull)) none, asyncOkH]).length
        ∧ (metaOf [mkPlain (fun _ => some (.ok JSVal.vnull)) none, asyncOkH] 1).isAsync = true
        ∧ ([mkPlain (fun _ => some (.ok JSVal.vnull)) none, asyncOkH]).get? 0
            = some (mkPlain (fun _ => some (.ok JSVal.vnull)) none)
        ∧ stopCheck [JSVal.vnum 0] = false
        ∧ (fun (_ : List JSVal) => (some (.ok JSVal.vnull) : Res)) [JSVal.vnum 0]
            = some (.ok JSVal.vnull))
      ∧ ((metaOf [mkPlain (fun _ => some (.ok JSVal.vnull)) none, asyncOkH] 0).shouldBeTreatAsAsync
            = true
        ∧ runFrom [mkPlain (fun _ => some (.ok JSVal.vnull)) none, asyncOkH] 0 [JSVal.vnum 0]
          = thenRun (promiseResolve JSVal.vnull)
              (fun v => runFrom [mkPlain (fun _ => some (.ok JSVal.vnull)) none, asyncOkH] 1 [v])) :=
  ⟨⟨Nat.zero_lt_one, by decide, rfl, rfl, rfl, rfl⟩,
    async_contagion_invariant [mkPlain (fun _ => some (.ok JSVal.vnull)) none, asyncOkH]
      0 1 (fun _ => some (.ok JSVal.vnull)) none [JSVal.vnum 0] JSVal.vnull
      Nat.zero_lt_one (by decide) rfl rfl rfl rfl⟩

/-- C4: evaluation of the code at a failing input.  The claim says that if
handler `k` calls `abortWith(R)` the entry point resolves to `R`.  On the
entry pipeline `[sync handler calling abortWith(9), async handler]` the entry
invocation instead propagates the raised abort object to the caller (the
synchronous throw escapes `Promise.resolve(handler(...args))` before its
`.catch` is attached) and does not resolve to 9.  (The second part of the
claim holds: handler 2 is never invoked.) -/
theorem abort_does_not_resolve_entry_under_contagion :
    entrySequenceOf [] [aborting9H, asyncOkH] [.vnum 2] 3
        = some (.error (.sigAbort (.vnum 9)))
      ∧ entrySequenceOf [] [aborting9H, asyncOkH] [.vnum 2] 3 ≠ some (.ok (.vnum 9)) :=
  ⟨rfl, res_error_ne_ok _ _⟩

/-- C5: evaluation of the code at a failing input.  The claim says a
`jumpTo("x", A)` from handler `k` makes the entry point resolve to the result
of invoking the registered handler `"x"` with `A`.  With `"x"` registered
(and resolving to 42, as the second conjunct shows), the entry pipeline
`[sync toolkit handler calling jumpTo("x", [3]), async handler]` instead
propagates the raised jump signal to the caller: the first handler is marked
treat-as-async by contagion and its synchronous throw escapes
`Promise.resolve(handler(...args))` before the `.catch` is attached. -/
theorem jump_does_not_resolve_entry_under_contagion :
    entrySequenceOf regX [jumperH ("x") [.vnum 3], asyncOkH] [.vnum 0] 4
        = some (.error (.sigJump ("x") [.vnum 3]))
      ∧ decorateWithExceptionCapture regX 4 (lookupReg regX ("x")) [.vnum 3]
        = some (.ok (.vnum 42))
      ∧ entrySequenceOf regX [jumperH ("x") [.vnum 3], asyncOkH] [.vnum 0] 4
        ≠ some (.ok (.vnum 42)) :=
  ⟨rfl, rfl, res_error_ne_ok _ _⟩

/-- C6: evaluation of the code at a failing input.  The claim says
`jumpTo("missing", A)` with no registered handler named `"missing"` raises a
genuine, distinctly-typed error that is not a control signal.  On the entry
pipeline `[sync toolkit handler calling jumpTo("missing", [1]), async
handler]` (first handler marked treat-as-async by contagion), what reaches
the caller is the raised jump signal object itself — a value whose `.code` is
the jump signal code — because the synchronous throw escapes
`Promise.resolve(handler(...args))` before interpretation; the TypeError
never arises. -/
theorem missing_jump_leaks_signal_under_contagion :
    lookupReg [] ("missing") = none
      ∧ entrySequenceOf [] [jumperH ("missing") [.vnum 1], asyncOkH] [.vnum 0] 4
        = some (.error (.sigJump ("missing") [.vnum 1]))
      ∧ (JSVal.sigJump ("missing") [.vnum 1]).code = some jumpExceptionCode :=
  ⟨rfl, rfl, rfl⟩

/-- C7: a wrapped handler invoked with a `stopPropagationWith`-constructed
value as first argument resolves immediately to its payload without running
the user handler (the equation holds for every handler at every position);
consequently a handler that returns `StopPropagation(R)` makes the remainder
of its local synchronous chain resolve to `R` — the value flows as a normal
return, never consulting the abort/jump interpreter. -/
theorem stop_propagation_short_circuits (phs : List UserHandler) (k : Nat)
    (hk : k < phs.length) (R : JSVal) (rest2 : List JSVal)
    (f : List JSVal → Res) (nm : Option String) (h2 : UserHandler)
    (t2 : List UserHandler) (args : List JSVal)
    (hsync : (h2 :: t2).any isFnAsync = false)
    (hstop : stopCheck args = false)
    (hf : f args = some (.ok (stopPropagationWith R))) :
    runFrom phs k (stopPropagationWith R :: rest2) = some (.ok R)
      ∧ runFrom (mkPlain f nm :: h2 :: t2) 0 args = some (.ok R) := by
  constructor
  · exact runFrom_stop phs k hk R rest2
  · rw [runFrom_plain_step f nm h2 t2 args _ hsync hstop hf]
    exact runFrom_stop (h2 :: t2) 0 (by simp) R []

/-- C7 witness: concrete instances of both parts, hypotheses discharged at
the input. -/
theorem stop_propagation_short_circuits_witness :
    (0 < ([asyncOkH]).length
        ∧ ([xH]).any isFnAsync = false
        ∧ stopCheck [JSVal.vnum 1] = false
        ∧ (fun (_ : List JSVal) => (some (.ok (stopPropagationWith (JSVal.vnum 8))) : Res))
            [JSVal.vnum 1]
          = some (.ok (stopPropagationWith (JSVal.vnum 8))))
      ∧ (runFrom [asyncOkH] 0 (stopPropagationWith (JSVal.vnum 8) :: [JSVal.vnull])
          = some (.ok (JSVal.vnum 8))
        ∧ runFrom [mkPlain (fun _ => some (.ok (stopPropagationWith (JSVal.vnum 8)))) none, xH]
            0 [JSVal.vnum 1]
          = some (.ok (JSVal.vnum 8))) :=
  ⟨⟨by decide, rfl, rfl, rfl⟩,
    stop_propagation_short_circuits [asyncOkH] 0 (by decide) (JSVal.vnum 8) [JSVal.vnull]
      (fun _ => some (.ok (stopPropagationWith (JSVal.vnum 8)))) none xH [] [JSVal.vnum 1]
      rfl rfl rfl⟩

/-- C8: the name registry is shared by all pipelines built from one factory,
and re-registering a name overwrites: with `nm` registered at position `p` of
an earlier-built pipeline `phs1` and (last) at position `q` of a later-built
pipeline `phs2`, lookup resolves to the later registration, so
`captureException` dispatches a jump on `nm` to it; the earlier entry is
unreachable.  A name registered only in `phs1` stays visible after `phs2` is
built (third conjunct). -/
theorem registry_last_write_wins (reg : Registry) (phs1 phs2 : List UserHandler)
    (nm : String) (p q : Nat) (A : List JSVal) (fuel : Nat)
    (hp : nameAt phs1 p = some nm)
    (hq : nameAt phs2 q = some nm)
    (hqlast : ∀ i, q < i → nameAt phs2 i ≠ some nm) :
    lookupReg (registerPipeline (registerPipeline reg phs1) phs2) nm = some ⟨phs2, q⟩
      ∧ captureException (registerPipeline (registerPipeline reg phs1) phs2) fuel
          (.sigJump nm A)
        = decorateWithExceptionCapture (registerPipeline (registerPipeline reg phs1) phs2)
            fuel (some ⟨phs2, q⟩) A
      ∧ ∀ (nm2 : String) (p2 : Nat), nameAt phs1 p2 = some nm2 →
          (∀ i, p2 < i → nameAt phs1 i ≠ some nm2) →
          (∀ i, nameAt phs2 i ≠ some nm2) →
          lookupReg (registerPipeline (registerPipeline reg phs1) phs2) nm2
            = some ⟨phs1, p2⟩ := by
  have h1 : lookupReg (registerPipeline (registerPipeline reg phs1) phs2) nm
      = some ⟨phs2, q⟩ := by
    rw [lookup_registerPipeline, lastNamedIdx_eq_some phs2 nm q hq hqlast]
  refine ⟨h1, ?_, ?_⟩
  · show decorateWithExceptionCapture _ fuel
        (lookupReg (registerPipeline (registerPipeline reg phs1) phs2) nm) A = _
    rw [h1]
  · intro nm2 p2 hp2 hlast2 hnone2
    rw [lookup_registerPipeline, lastNamedIdx_eq_none phs2 nm2 hnone2,
      lookup_registerPipeline, lastNamedIdx_eq_some phs1 nm2 p2 hp2 hlast2]

/-- C8 witness: two single-handler pipelines both registering the name `x`;
lookup after building both resolves to the second pipeline's entry. -/
theorem registry_last_write_wins_witness :
    (nameAt [xH] 0 = some ("x")
        ∧ nameAt [mkPlain (fun _ => some (.ok JSVal.vnull)) (some ("x"))] 0 = some ("x")
        ∧ (∀ i, 0 < i →
            nameAt [mkPlain (fun _ => some (.ok JSVal.vnull)) (some ("x"))] i ≠ some ("x")))
      ∧ lookupReg
          (registerPipeline (registerPipeline [] [xH])
            [mkPlain (fun _ => some (.ok JSVal.vnull)) (some ("x"))]) ("x")
        = some ⟨[mkPlain (fun _ => some (.ok JSVal.vnull)) (some ("x"))], 0⟩ := by
  have hlast : ∀ i, 0 < i →
      nameAt [mkPlain (fun _ => some (.ok JSVal.vnull)) (some ("x"))] i ≠ some ("x") := by
    intro i hi
    cases i with
    | zero => omega
    | succ n =>
      cases n <;> simp [nameAt]
  exact ⟨⟨rfl, rfl, hlast⟩,
    (registry_last_write_wins [] [xH]
      [mkPlain (fun _ => some (.ok JSVal.vnull)) (some ("x"))] ("x") 0 0 [] 0
      rfl rfl hlast).1⟩

/-- C9: the engine classifies a handler as asynchronous solely by its
declared nature (`constructor.name === 'AsyncFunction'`, the `isAsyncFn`
flag): a synchronous handler returning a pending promise is classified
synchronous (its chain has no async marks), so in a plain chain its pending
value is passed, un-awaited, as the sole argument to the next handler. -/
theorem sync_promise_passed_unawaited (f0 f1 : List JSVal → Res)
    (nm0 nm1 : Option String) (args : List JSVal) (v : JSVal)
    (hstop : stopCheck args = false)
    (h0 : f0 args = some (.ok (.vpromiseOk v))) :
    isFnAsync (mkPlain f0 nm0) = false
      ∧ metaOf [mkPlain f0 nm0, mkPlain f1 nm1] 0 = ⟨false, false⟩
      ∧ runFrom [mkPlain f0 nm0, mkPlain f1 nm1] 0 args = f1 [JSVal.vpromiseOk v] := by
  refine ⟨rfl, metaOf_allSync _ (by simp [mkPlain, isFnAsync]) 0, ?_⟩
  rw [runFrom_plain_step f0 nm0 _ [] args _ (by simp [mkPlain, isFnAsync]) hstop h0]
  exact runFrom_plain_last f1 nm1 _ rfl

/-- C9 witness: a synchronous handler returning a fulfilled promise of `null`
hands the promise object itself to its successor. -/
theorem sync_promise_passed_unawaited_witness :
    (stopCheck [JSVal.vnum 1] = false
        ∧ (fun (_ : List JSVal) => (some (.ok (JSVal.vpromiseOk JSVal.vnull)) : Res))
            [JSVal.vnum 1]
          = some (.ok (.vpromiseOk JSVal.vnull)))
      ∧ (isFnAsync (mkPlain (fun _ => some (.ok (JSVal.vpromiseOk JSVal.vnull))) none) = false
        ∧ metaOf [mkPlain (fun _ => some (.ok (JSVal.vpromiseOk JSVal.vnull))) none,
            mkPlain (fun a => some (.ok (a.getD 0 .vundefined))) none] 0 = ⟨false, false⟩
        ∧ runFrom [mkPlain (fun _ => some (.ok (JSVal.vpromiseOk JSVal.vnull))) none,
            mkPlain (fun a => some (.ok (a.getD 0 .vundefined))) none] 0 [JSVal.vnum 1]
          = (fun a => some (.ok (a.getD 0 .vundefined))) [JSVal.vpromiseOk JSVal.vnull]) :=
  ⟨⟨rfl, rfl⟩,
    sync_promise_passed_unawaited (fun _ => some (.ok (JSVal.vpromiseOk JSVal.vnull)))
      (fun a => some (.ok (a.getD 0 .vundefined))) none none [JSVal.vnum 1] JSVal.vnull
      rfl rfl⟩

/-- C10: applied to the empty handler list, `sequenceOf` returns no callable
handler (`handlers[0]` is `undefined`), and the function returned by
`entrySequenceOf` raises a TypeError on every invocation (it dereferences
`undefined.__meta__`) instead of returning a value: the empty pipeline is not
a usable no-op. -/
theorem empty_pipeline_unusable :
    sequenceOf [] = none
      ∧ ∀ (reg : Registry) (args : List JSVal) (fuel : Nat),
          entrySequenceOf reg [] args fuel = some (.error JSVal.vTypeError) := by
  refine ⟨rfl, ?_⟩
  intro reg args fuel
  simp [entrySequenceOf, sequenceOf, decorateWithExceptionCapture]

end Daisugi
